import Mathlib

/-!
Verification of the WireFire coordination server against its specification.

Each definition in this file is a shallow embedding of a region of the Go
source, named after the function it embeds and annotated with the file and
line range it was translated from. Definitions marked `Modelled from the
spec:` or `modelled from the external library` stand for code that is not
part of this repository (standard library or third-party dependencies) and
were written from the behavior of those libraries, restricted to what the
theorems need. Theorems are named after the claims they settle.
-/

namespace Wirefire

/-- Minimum supported client capability version (src/unnamed/part_004 line 23). -/
def SupportedCapabilityVersion : Nat := 68

/-- Version-error message returned to old clients (src/unnamed/part_004 line 25). -/
def UnsupportedClientVersionMessage : String :=
  "wirefire only support client version >= 1.48.0, please upgrade your client"

/-! ### Map-builder closure state (C1), src/internal/coordinator/mapper.go -/

/-- State the map-builder closure keeps between invocations
(mapper.go line 69: `counter, derpChecksum := 1, ""`). -/
structure MapperState where
  counter : Nat
  derpChecksum : String
deriving DecidableEq, Repr

/-- Initial closure state of `mapper()` (mapper.go line 69). -/
def mapperInit : MapperState := ⟨1, ""⟩

/-- One invocation of the map-builder closure, restricted to the DERPMap decision
(mapper.go lines 71-100). `checksum` is `util.Checksum(derpMap)` for the current
relay directory. Mirrors the source: `delta := counter > 1` (line 73),
`defer func() \x7b counter += 1 \x7d()` (line 74), and line 97:
`if checksum := util.Checksum(derpMap); delta || checksum != derpChecksum
\x7b derpChecksum = checksum; resp.DERPMap = derpMap \x7d`.
Returns whether the response carries the DERPMap field, and the new state. -/
def mapperDerpStep (st : MapperState) (checksum : String) : Bool × MapperState :=
  let delta := decide (st.counter > 1)
  if delta || (checksum != st.derpChecksum) then
    (true, ⟨st.counter + 1, checksum⟩)
  else
    (false, ⟨st.counter + 1, st.derpChecksum⟩)

/-- The DERPMap rule as the specification states it (spec 4.G): include the relay
directory on the first invocation, or when the fingerprint differs from the last
sent one; otherwise omit it. Written from the words of the spec, for comparison
with `mapperDerpStep`. -/
def specDerpIncluded (st : MapperState) (checksum : String) : Bool :=
  decide (st.counter = 1) || (checksum != st.derpChecksum)

/-- C1: the claim fails on the code. On the second invocation of the same session
with an unchanged relay-directory fingerprint, the session built by `mapper()`
includes the DERPMap field again (because line 97 tests `delta`, true from the
second invocation on, instead of its negation), while the specified rule omits it.
The fingerprint-tracking state `derpChecksum` is dead under this condition, which
contradicts the stated purpose of the closure state (mapper.go lines 63-68). -/
theorem c1_derp_resent_on_unchanged_fingerprint :
    (mapperDerpStep (mapperDerpStep mapperInit "cs0").2 "cs0").1 = true ∧
      specDerpIncluded (mapperDerpStep mapperInit "cs0").2 "cs0" = false := by
  constructor <;> rfl

/-! ### Streaming producer loop (C2), src/internal/coordinator/mapper.go -/

/-- The two debounce timestamps of the streaming producer
(mapper.go lines 186-187), with time as a natural number. -/
structure ServeState where
  lastUpdate : Nat
  lastSync : Nat
deriving DecidableEq, Repr

/-- Events the producer loop selects over (mapper.go lines 210-252). -/
inductive ServeEvent
  | conduit (now : Nat)
  | syncTick
  | keepAliveTick
  | ctxDone

/-- What one loop iteration pushes onto the sink channel. -/
inductive SentResponse
  | mapResponse
  | keepAlive
deriving DecidableEq, Repr

/-- One iteration of the streaming producer loop (mapper.go lines 209-253):
a conduit message only advances `lastUpdate` (line 213); a sync tick rebuilds and
sends when `lastSync.Before(lastUpdate) || true` holds (line 217, verbatim including
the `|| true`), then sets `lastSync = lastUpdate` (line 237); a keep-alive tick sends
a keep-alive when the request asked for one (lines 243-246); context cancellation
sends nothing. Returns the new state and the responses sent. -/
def serveStep (keepAliveRequested : Bool) (st : ServeState) (e : ServeEvent) :
    ServeState × List SentResponse :=
  match e with
  | .conduit now => ({ st with lastUpdate := now }, [])
  | .syncTick =>
      if decide (st.lastSync < st.lastUpdate) || true then
        ({ st with lastSync := st.lastUpdate }, [.mapResponse])
      else
        (st, [])
  | .keepAliveTick => (st, if keepAliveRequested then [.keepAlive] else [])
  | .ctxDone => (st, [])

/-- C2: the claim fails on the code. On a sync tick where no update signal has
arrived since the last rebuild (`lastSync = lastUpdate`, here both 5), the
producer still builds and sends a map response, because the gate on
mapper.go line 217 reads `lastSync.Before(lastUpdate) || true` and the
`|| true` short-circuits the comparison, contradicting the comment above it
(lines 177-184) which describes rebuilding only after an update. -/
theorem c2_sync_tick_always_rebuilds :
    serveStep false ⟨5, 5⟩ .syncTick = (⟨5, 5⟩, [.mapResponse]) := by
  rfl

/-! ### SaveMachine upsert against schema v1 (C3) -/

/-- Column sets of the unique indexes on the machines table, from
src/internal/database/schema/v1.sql: `idx_tailnet_id_name` on
(tailnet_id, name, name_idx) (line 96) and `idx_noise_node_key` on
(noise_key, node_key) (line 100). The rowid primary key aside, these are the
only uniqueness constraints on machines. -/
def machinesUniqueIndexes : List (List String) :=
  [["tailnet_id", "name", "name_idx"], ["noise_key", "node_key"]]

/-- The conflict target of the SaveMachine upsert,
src/unnamed/part_008 line 134: `ON CONFLICT (noise_key)`. -/
def saveMachineConflictTarget : List String := ["noise_key"]

/-- SQLite accepts an `ON CONFLICT (cols) DO UPDATE` clause only when the target
columns are, as a set, the columns of some uniqueness constraint of the table;
otherwise preparing the statement fails. Modelled from the documented SQLite
upsert rules (external dependency crawshaw.io/sqlite wraps stock SQLite). -/
def conflictTargetMatches (target : List String) (indexes : List (List String)) : Bool :=
  indexes.any fun ix =>
    target.length = ix.length && ix.all (fun c => target.contains c)
      && target.all (fun c => ix.contains c)

/-- Preparing the SaveMachine statement against schema v1: the conflict target
must name a uniqueness constraint of machines. -/
def prepareSaveMachine : Except String Unit :=
  if conflictTargetMatches saveMachineConflictTarget machinesUniqueIndexes then
    .ok ()
  else
    .error "ON CONFLICT clause does not match any PRIMARY KEY or UNIQUE constraint"

/-- C3: the claim states the intended upsert-in-place behavior, but against the
shipped schema every SaveMachine call fails before touching any row: the upsert
names `ON CONFLICT (noise_key)` while the only unique index covering noise_key
is the composite (noise_key, node_key), so SQLite rejects the statement when it
is prepared. This contradicts the doc comment of SaveMachine itself
(src/unnamed/part_008 lines 125-128), which promises an update of the existing
record. -/
theorem c3_save_machine_upsert_rejected :
    prepareSaveMachine =
      .error "ON CONFLICT clause does not match any PRIMARY KEY or UNIQUE constraint" := by
  rfl

/-! ### Version gates and HTTP wrappers (C5), src/unnamed/part_005, mapper.go, util/http.go -/

/-- The subset of tailcfg.RegisterResponse fields the register handler sets
(external tailscale.com/tailcfg; unset fields keep their zero values). -/
structure RegisterResponse where
  error : String := ""
  authURL : String := ""
  machineAuthorized : Bool := false
  nodeKeyExpired : Bool := false
deriving DecidableEq, Repr

/-- The body of an HTTP response as observed by the client. -/
inductive HttpBody
  | jsonBody (r : RegisterResponse)
  | errText (s : String)
  | stream
  | empty
deriving DecidableEq

/-- The version gate of the /machine/register handler (src/unnamed/part_005
lines 33-35): a request whose capability version is below the minimum returns a
RegisterResponse carrying the version message, with a nil error. `rest` stands
for the remainder of the handler, which runs only at supported versions. -/
def machineRegister (version : Nat) (rest : Except String RegisterResponse) :
    Except String RegisterResponse :=
  if version < SupportedCapabilityVersion then
    .ok { error := UnsupportedClientVersionMessage }
  else rest

/-- The version gate of the /machine/map handler (mapper.go lines 259-262):
a request whose capability version is below the minimum makes the handler
return an error before writing anything. `rest` stands for the remainder of
the handler. -/
def machineMapGate (version : Nat) (rest : Except String Unit) : Except String Unit :=
  if version < SupportedCapabilityVersion then
    .error UnsupportedClientVersionMessage
  else rest

/-- util.HandlerFunc.ServeHTTP (src/internal/util/http.go lines 24-37, assuming
the request body decoded): a handler error becomes `http.Error` with status 400
and the error text; a successful result is JSON-encoded with status 200. -/
def handlerServeHTTP (h : Except String RegisterResponse) : Nat × HttpBody :=
  match h with
  | .error e => (400, .errText e)
  | .ok o => (200, .jsonBody o)

/-- util.StreamingHandlerFunc.ServeHTTP (src/internal/util/http.go lines 58-60,
assuming the request body decoded): a handler error, returned before the handler
wrote anything, becomes `http.Error` with status 400 and the error text. -/
def streamingServeHTTP (h : Except String Unit) : Nat × HttpBody :=
  match h with
  | .error e => (400, .errText e)
  | .ok _ => (200, .stream)

/-- C5: a /machine/register request with capability version below 68 receives a
normal HTTP 200 response whose RegisterResponse body carries the version message
in its Error field, while a /machine/map request with the same version receives
an HTTP 400 error response carrying that message as text. -/
theorem c5_version_gate (v : Nat) (hv : v < 68)
    (restReg : Except String RegisterResponse) (restMap : Except String Unit) :
    handlerServeHTTP (machineRegister v restReg)
        = (200, .jsonBody { error := UnsupportedClientVersionMessage }) ∧
      streamingServeHTTP (machineMapGate v restMap)
        = (400, .errText UnsupportedClientVersionMessage) := by
  have h : v < SupportedCapabilityVersion := hv
  constructor
  · simp [machineRegister, handlerServeHTTP, if_pos h]
  · simp [machineMapGate, streamingServeHTTP, if_pos h]

/-- Witness for C5 at capability version 67. -/
theorem c5_version_gate_witness :
    handlerServeHTTP (machineRegister 67 (.ok {}))
        = (200, .jsonBody { error := UnsupportedClientVersionMessage }) ∧
      streamingServeHTTP (machineMapGate 67 (.ok ()))
        = (400, .errText UnsupportedClientVersionMessage) :=
  c5_version_gate 67 (by decide) (.ok {}) (.ok ())

/-! ### The /key endpoint (C10), src/unnamed/part_009 -/

/-- binary.LittleEndian.PutUint32 into the first 4 bytes of the frame
(mapper.go line 313): the four little-endian bytes of `uint32(n)`. -/
def putUint32LE (n : Nat) : List Nat :=
  [n % 256, n / 256 % 256, n / 65536 % 256, n / 16777216 % 256]

/-- The non-streaming branch of the /machine/map handler (mapper.go
lines 256-319) for a request with `Stream == false`: after the version gate
(lines 259-262) and the machine lookup (lines 267-274), the handler updates the
machine from the request and persists it with
`database.Exec(conn, domain.SaveMachine(machine))` (line 288), returning the
error when the exec fails — which, against schema v1, it always does when the
statement is prepared (see `prepareSaveMachine`; database.Exec prepares first,
query.go line 92). Only on success does it build one full map response, encode
it with `util.Json` or, when the request's Compress field equals "zstd", with
`util.Zstd` (zstd compression of the JSON encoding, lines 301-304), prepend the
4-byte little-endian length (lines 312-314), and write status 200 with exactly
those bytes (lines 316-318). `jsonBytes` stands for the JSON encoding of the
map response built for this machine and `zstdCompress` for the zstd compressor,
both external collaborators (encoding/json,
github.com/klauspost/compress/zstd). -/
def machineMapNonStreaming (version : Nat) (machineFound : Bool) (compress : String)
    (jsonBytes : List Nat) (zstdCompress : List Nat → List Nat) :
    Except String (Nat × List Nat) :=
  if version < SupportedCapabilityVersion then .error UnsupportedClientVersionMessage
  else if !machineFound then .error "machine not found"
  else
    match prepareSaveMachine with
    | .error e => .error e
    | .ok _ =>
        let payload := if compress = "zstd" then zstdCompress jsonBytes else jsonBytes
        .ok (200, putUint32LE payload.length ++ payload)

/-- C4: the claim fails on the code as shipped. A non-streaming /machine/map
request from a known machine at a supported capability version never produces a
frame: before building the response the handler saves the updated machine
(mapper.go line 288), and that SaveMachine statement fails to prepare against
schema v1 (its `ON CONFLICT (noise_key)` matches no unique constraint, see
`prepareSaveMachine`), so the handler returns the error and the streaming
wrapper answers HTTP 400. The length-prefix framing code at lines 301-318 is
correct but unreachable. -/
theorem c4_nonstream_no_frame (version : Nat) (hv : SupportedCapabilityVersion ≤ version)
    (compress : String) (jsonBytes : List Nat) (zstdCompress : List Nat → List Nat) :
    machineMapNonStreaming version true compress jsonBytes zstdCompress
        = .error "ON CONFLICT clause does not match any PRIMARY KEY or UNIQUE constraint"
      ∧ streamingServeHTTP
          ((machineMapNonStreaming version true compress jsonBytes zstdCompress).map
            fun _ => ())
        = (400, .errText
            "ON CONFLICT clause does not match any PRIMARY KEY or UNIQUE constraint") := by
  have h1 : machineMapNonStreaming version true compress jsonBytes zstdCompress
      = .error "ON CONFLICT clause does not match any PRIMARY KEY or UNIQUE constraint" := by
    rw [machineMapNonStreaming, if_neg (not_lt.mpr hv)]
    rfl
  exact ⟨h1, by rw [h1]; rfl⟩

/-- Witness for C4 at version 68, Compress = "zstd", a 2-byte JSON encoding and
a compressor prepending one byte. -/
theorem c4_nonstream_no_frame_witness :
    machineMapNonStreaming 68 true "zstd" [7, 8] (fun l => 9 :: l)
        = .error "ON CONFLICT clause does not match any PRIMARY KEY or UNIQUE constraint"
      ∧ streamingServeHTTP
          ((machineMapNonStreaming 68 true "zstd" [7, 8] (fun l => 9 :: l)).map
            fun _ => ())
        = (400, .errText
            "ON CONFLICT clause does not match any PRIMARY KEY or UNIQUE constraint") :=
  c4_nonstream_no_frame 68 (by decide) "zstd" [7, 8] (fun l => 9 :: l)

/-! ### IPAM selection loop (C8), src/internal/ipam/ipam.go -/

/-- First address of the Tailscale CGNAT range 100.64.0.0/10, as a 32-bit
integer (modelled from the external tailscale.com/net/tsaddr CGNATRange). -/
def cgnatFirst : Nat := 100 * 16777216 + 64 * 65536

/-- Number of addresses in the /10 block (ipam.go line 26,
cidr.AddressCount). -/
def ipv4Count : Nat := 4194304

/-- First address of the ChromeOS VM range 100.115.92.0/23, which
tsaddr.IsTailscaleIP excludes from the CGNAT block. -/
def chromeOSFirst : Nat := 100 * 16777216 + 115 * 65536 + 92 * 256

/-- Number of addresses in the ChromeOS VM /23 block. -/
def chromeOSCount : Nat := 512

/-- tsaddr.IsTailscaleIP (external tailscale.com/net/tsaddr): inside the CGNAT
range and outside the ChromeOS VM range. -/
def isTailscaleIP (ip : Nat) : Bool :=
  (decide (cgnatFirst ≤ ip) && decide (ip < cgnatFirst + ipv4Count))
    && !(decide (chromeOSFirst ≤ ip) && decide (ip < chromeOSFirst + chromeOSCount))

/-- validateIP (ipam.go lines 61-70) with a non-nil predicate: addresses
outside the usable range are rejected without consulting the predicate. -/
def validateIP (ip : Nat) (p : Nat → Bool) : Bool :=
  if isTailscaleIP ip then p ip else false

/-- cidr.HostBig on the CGNAT range (external github.com/apparentlymart/go-cidr):
base address plus offset, failing outside the block. -/
def hostBig (n : Nat) : Except String Nat :=
  if n < ipv4Count then .ok (cgnatFirst + n) else .error "out of range"

/-- The selection loop of selectIP (ipam.go lines 41-59), run for `fuel`
iterations; `none` means the loop is still running after `fuel` iterations.
Each iteration computes the candidate at offset n, returns it when
`validateIP` accepts, and otherwise advances to `(n + 1) % ipv4Count`. The Go
loop takes no context and contains no cancellation check; its only exits are a
successful candidate or a hostBig or predicate error (the predicate error path
is subsumed here by the predicate returning false, as the claim's saturated
predicate never errors). -/
def selectIPLoop (p : Nat → Bool) (n : Nat) : Nat → Option (Except String Nat)
  | 0 => none
  | fuel + 1 =>
      match hostBig n with
      | .error e => some (.error e)
      | .ok ip =>
          if validateIP ip p then some (.ok ip)
          else selectIPLoop p ((n + 1) % ipv4Count) fuel

/-- Outcomes of the cancellation-aware loop the claim describes. -/
inductive IpamOutcome
  | found (ip : Nat)
  | failed (e : String)
  | cancelled
deriving DecidableEq

/-- Modelled from the spec: the loop as the claim describes it, checking the
ambient context for cancellation on each iteration and returning when it is
cancelled. Written for comparison with `selectIPLoop`, which embeds the source
and has no such check. -/
def selectIPLoopCancelAware (cancelled : Bool) (p : Nat → Bool) (n : Nat) :
    Nat → Option IpamOutcome
  | 0 => none
  | fuel + 1 =>
      if cancelled then some .cancelled
      else
        match hostBig n with
        | .error e => some (.failed e)
        | .ok ip =>
            if validateIP ip p then some (.found ip)
            else selectIPLoopCancelAware cancelled p ((n + 1) % ipv4Count) fuel

/-- C8 counterexample: with the ambient request context already cancelled and a
saturated tailnet (predicate always false), the loop of the source runs 64 full
iterations without returning, while the loop the claim describes returns
`cancelled` on its first iteration. The source loop cannot observe cancellation
at all: it takes no context. -/
theorem c8_cancellation_not_checked :
    selectIPLoop (fun _ => false) 0 64 = none ∧
      selectIPLoopCancelAware true (fun _ => false) 0 64 = some .cancelled :=
  ⟨rfl, rfl⟩

/-- C8 amended: in a fully saturated tailnet (predicate false on every address)
the selection loop never returns: for every in-range starting offset and every
iteration budget it is still running. Cancellation cannot interrupt it, because
the loop neither receives a context nor checks one. -/
theorem c8_saturated_never_returns (p : Nat → Bool) (hp : ∀ a, p a = false) :
    ∀ fuel n, n < ipv4Count → selectIPLoop p n fuel = none := by
  intro fuel
  induction fuel with
  | zero => intro n _; rfl
  | succ f ih =>
      intro n hn
      have hhb : hostBig n = .ok (cgnatFirst + n) := by
        simp [hostBig, if_pos hn]
      have hv : validateIP (cgnatFirst + n) p = false := by
        unfold validateIP
        split <;> simp [hp]
      simp [selectIPLoop, hhb, hv]
      exact ih _ (Nat.mod_lt _ (by decide))

/-- Witness for C8 amended: the always-false predicate, offset 0, five
iterations. -/
theorem c8_saturated_never_returns_witness :
    selectIPLoop (fun _ => false) 0 5 = none :=
  c8_saturated_never_returns (fun _ => false) (fun _ => rfl) 5 0 (by decide)

/-! ### Machine name indexes (C6), src/unnamed/part_008 and part_005, oidc.go -/

/-- The columns of a machines row that name-index assignment reads and writes. -/
structure MachineRow where
  id : Nat
  tailnetId : Nat
  name : String
  nameIdx : Nat
deriving DecidableEq, Repr

/-- The name_idx values of the machines of a tailnet with a given name:
the query `SELECT name_idx FROM machines WHERE name = $1 AND tailnet_id = $2`
of GetNextNameIndex (src/unnamed/part_008 line 271). -/
def nameIdxs (rows : List MachineRow) (t : Nat) (n : String) : List Nat :=
  (rows.filter fun r => r.tailnetId == t && r.name == n).map MachineRow.nameIdx

/-- GetNextNameIndex (src/unnamed/part_008 lines 268-286) combined with FetchOne
(src/internal/database/query.go lines 51-70): the query orders by name_idx
descending, FetchOne keeps only the first row, i.e. the largest index, and the
row mapper adds 1; with no matching row FetchOne yields nil. -/
def getNextNameIndex (rows : List MachineRow) (t : Nat) (n : String) : Option Nat :=
  if nameIdxs rows t n = [] then none
  else some ((nameIdxs rows t n).foldr Nat.max 0 + 1)

/-- Machine creation (src/internal/oidc/oidc.go lines 261-307) as it executes:
the new machine takes name_idx 0 when no machine of the tailnet has the name
and the next name index otherwise (lines 281-290), and is then persisted with
`database.Exec(conn, domain.SaveMachine(machine))` (line 302). Against schema
v1 that statement fails to prepare (see `prepareSaveMachine`), createMachine
returns the error, the transaction around it (line 195) rolls back, and the
table is unchanged. -/
def registerMachine (rows : List MachineRow) (id t : Nat) (n : String) : List MachineRow :=
  let idx := (getNextNameIndex rows t n).getD 0
  match prepareSaveMachine with
  | .error _ => rows
  | .ok _ => rows ++ [⟨id, t, n, idx⟩]

/-- Hostname handling for a returning machine in /machine/register
(src/unnamed/part_005 lines 100-139) as it executes: when the sanitized
hostname differs from the stored name the machine takes the next name index for
the new name in its tailnet (lines 121-135), and the row is then saved with
SaveMachine (line 137, run whether or not the name changed). Against schema v1
that save fails to prepare, the handler returns the error and the transaction
opened at line 101 rolls back, leaving the table unchanged. -/
def renameMachine (rows : List MachineRow) (id : Nat) (newName : String) : List MachineRow :=
  match rows.find? (fun r => r.id == id) with
  | none => rows
  | some m =>
      let nm :=
        if m.name = newName then (m.name, m.nameIdx)
        else (newName, (getNextNameIndex rows m.tailnetId newName).getD 0)
      match prepareSaveMachine with
      | .error _ => rows
      | .ok _ =>
          rows.map fun r =>
            if r.id == id then { r with name := nm.1, nameIdx := nm.2 } else r

/-- The two operations of the claim. -/
inductive MachineOp
  | register (id t : Nat) (n : String)
  | rename (id : Nat) (newName : String)

/-- Applies one operation to the machines table. -/
def applyMachineOp (rows : List MachineRow) : MachineOp → List MachineRow
  | .register id t n => registerMachine rows id t n
  | .rename id n => renameMachine rows id n

/-- Runs a sequence of operations from the empty table. -/
def runMachineOps (ops : List MachineOp) : List MachineRow :=
  ops.foldl applyMachineOp []

/-- Whether a list of naturals is, as a multiset, exactly 0..(length - 1). -/
def isInitialSegment (l : List Nat) : Bool :=
  (List.range l.length).all fun i => l.count i == 1

/-- Every operation leaves the machines table unchanged: both the registration
write (oidc.go line 302) and the returning-machine save (part_005 line 137) go
through SaveMachine, whose statement fails to prepare against schema v1, and
the surrounding transactions roll back. -/
theorem applyMachineOp_eq (rows : List MachineRow) (op : MachineOp) :
    applyMachineOp rows op = rows := by
  cases op with
  | register id t n => rfl
  | rename id n =>
      simp only [applyMachineOp, renameMachine]
      split
      · rfl
      · rfl

theorem runMachineOps_eq_nil (ops : List MachineOp) : runMachineOps ops = [] := by
  have h : ∀ rows : List MachineRow, ops.foldl applyMachineOp rows = rows := by
    induction ops with
    | nil => intro rows; rfl
    | cons op ops ih =>
        intro rows
        rw [List.foldl_cons, applyMachineOp_eq]
        exact ih rows
  exact h []

/-- C6: the invariant holds on the code as shipped, though vacuously. Every
machine registration and every rename is persisted through SaveMachine
(oidc.go line 302, part_005 line 137), whose statement fails to prepare against
schema v1 (see `prepareSaveMachine`), and the surrounding transaction rolls
back, so no sequence of registrations and renames ever stores or changes a
machine row. The table stays empty and, for every tailnet and name, the
multiset of name_idx values is the empty contiguous prefix. (Were the saves to
succeed, a rename away from a shared name would leave a gap: GetNextNameIndex
hands out max existing index + 1 and nothing renumbers the old name.) -/
theorem c6_name_index_contiguous (ops : List MachineOp) (t : Nat) (n : String) :
    isInitialSegment (nameIdxs (runMachineOps ops) t n) = true := by
  rw [runMachineOps_eq_nil]
  rfl

/-! ### OIDC AuthComplete error propagation (C7), src/internal/oidc/oidc.go -/

/-- A machine_registration_requests row, restricted to the columns AuthComplete
reads and writes. -/
structure RegRequestRow where
  id : String
  authenticated : Bool
  userId : Option Nat
  error : String
deriving DecidableEq, Repr

/-- The database state AuthComplete can touch: registration requests and the
machines table (machines carried as opaque ids, since the claim only asks
whether a row is created). -/
structure OidcDb where
  requests : List RegRequestRow
  machines : List Nat
deriving DecidableEq, Repr

/-- RegistrationRequestById + FetchOne (src/internal/domain/registration_request.go
lines 52-68): the row whose id matches, if any. -/
def findRequest (db : OidcDb) (rid : String) : Option RegRequestRow :=
  db.requests.find? fun r => r.id == rid

/-- SaveRegistrationRequest (src/internal/domain/registration_request.go
lines 71-89): `UPDATE machine_registration_requests SET authenticated, error,
user_id WHERE id = ?`. -/
def saveRequest (db : OidcDb) (rr : RegRequestRow) : OidcDb :=
  { db with requests := db.requests.map fun r => if r.id == rr.id then rr else r }

/-- The observable results of each external call AuthComplete makes, in source
order (oidc.go lines 170-248); each flag stands for whether that call
succeeds, and the payload fields for what it returns. -/
structure CompleteEnv where
  parseFormOk : Bool
  verifyOk : Bool
  rid : String
  fetchRequestFails : Bool
  fetchUserFails : Bool
  userId : Option Nat
  isMember : Bool
  fetchTailnetFails : Bool
  fetchMachineFails : Bool
  machineExists : Bool
  createMachineFails : Bool
  newMachineId : Nat
  saveRequestFails : Bool
  bestEffortSaveOk : Bool

/-- Result of the `database.Tx` block of AuthComplete (oidc.go lines 195-234):
committed with the updated database and the saved request, or rolled back with
the error and whatever the outer `rr` variable holds, or rolled back by a
panic (a nil dereference inside the block; sqlitex.Save rolls back on panic
and re-panics, and the chi Recoverer middleware turns it into a 500 without
running the rest of the handler). -/
inductive TxOutcome
  | committed (db : OidcDb) (rr : RegRequestRow)
  | failed (msg : String) (rr : Option RegRequestRow)
  | panicked
deriving DecidableEq, Repr

/-- The transaction body of AuthComplete (oidc.go lines 195-234), step by step:
fetch the request by form value rid (line 196), fetch the user by token subject
(line 201; a missing user row makes CheckMembership dereference a nil user,
user.go line 74), check membership (lines 205-208), fetch the tailnet
(line 211), fetch the machine by the request's noise key (line 217), create the
machine when absent (lines 221-224), then mark the request authenticated and
bound to the user and save it (lines 229-233; a nil request panics here). -/
def authCompleteTx (env : CompleteEnv) (db : OidcDb) : TxOutcome :=
  if env.fetchRequestFails then .failed "failed to fetch request" none
  else
    let rr? := findRequest db env.rid
    if env.fetchUserFails then .failed "failed to fetch user" rr?
    else
      match env.userId with
      | none => .panicked
      | some uid =>
          if !env.isMember then .failed "user is not a member of the requested tailnet" rr?
          else if env.fetchTailnetFails then .failed "failed to fetch tailnet" rr?
          else if env.fetchMachineFails then .failed "failed to fetch machine" rr?
          else if !env.machineExists && env.createMachineFails then
            .failed "failed to create machine" rr?
          else
            let db1 :=
              if env.machineExists then db
              else { db with machines := db.machines ++ [env.newMachineId] }
            match rr? with
            | none => .panicked
            | some rr =>
                let rr1 := { rr with authenticated := true, userId := some uid }
                if env.saveRequestFails then .failed "failed to save request" (some rr1)
                else .committed (saveRequest db1 rr1) rr1

/-- What the client observes from AuthComplete. -/
inductive CompleteOutcome
  | httpError (status : Nat)
  | success
  | panicked
deriving DecidableEq, Repr

/-- AuthComplete (oidc.go lines 170-248): form parsing and token verification
failures return HTTP 400 before the request row is ever loaded (lines 175-189);
then the transaction runs; on a transaction error the handler best-effort
writes the message onto the in-memory request with authenticated set to false
and saves it outside the rolled-back transaction (lines 236-243), when that
request is non-nil, and answers HTTP 500; on success it prints the success
message (line 245). -/
def authComplete (env : CompleteEnv) (db : OidcDb) : CompleteOutcome × OidcDb :=
  if !env.parseFormOk then (.httpError 400, db)
  else if !env.verifyOk then (.httpError 400, db)
  else
    match authCompleteTx env db with
    | .committed db1 _ => (.success, db1)
    | .panicked => (.panicked, db)
    | .failed msg rr? =>
        match rr? with
        | none => (.httpError 500, db)
        | some rr =>
            let rr1 := { rr with authenticated := false, error := msg }
            (.httpError 500, if env.bestEffortSaveOk then saveRequest db rr1 else db)

/-- C7 counterexample: the ID-token verification fails (oidc.go line 184). The
handler answers HTTP 400 and returns before the registration request is ever
loaded, so the error field of the pending request "r1" stays empty, the
polling /machine/register follow-up loop never observes an error, and the
client polls forever. The claim says every failure of the handler is written
back onto the request. -/
theorem c7_error_not_written_before_request_load :
    authComplete
      { parseFormOk := true, verifyOk := false, rid := "r1",
        fetchRequestFails := false, fetchUserFails := false, userId := some 1,
        isMember := true, fetchTailnetFails := false, fetchMachineFails := false,
        machineExists := false, createMachineFails := false, newMachineId := 1,
        saveRequestFails := false, bestEffortSaveOk := true }
      ⟨[⟨"r1", false, none, ""⟩], []⟩
      = (.httpError 400, ⟨[⟨"r1", false, none, ""⟩], []⟩) :=
  rfl

/-- C7 amended: whenever AuthComplete fails after the registration request was
loaded inside its transaction (and the best-effort write itself succeeds), the
transaction is rolled back so the machines table is unchanged, the handler
answers HTTP 500, and the stored request carries the failure message with
authenticated false; failures before the request is loaded (form parsing, token
verification, or the request fetch itself) return an HTTP error without
touching any registration request. -/
theorem c7_error_written_when_request_loaded (env : CompleteEnv) (db : OidcDb)
    (rr : RegRequestRow) (msg : String)
    (hp : env.parseFormOk = true) (hv : env.verifyOk = true)
    (htx : authCompleteTx env db = .failed msg (some rr))
    (hsave : env.bestEffortSaveOk = true) :
    authComplete env db
        = (.httpError 500, saveRequest db { rr with authenticated := false, error := msg })
      ∧ (authComplete env db).2.machines = db.machines := by
  have hmain : authComplete env db
      = (.httpError 500, saveRequest db { rr with authenticated := false, error := msg }) := by
    rw [authComplete, hp, hv]
    simp only [Bool.not_true, Bool.false_eq_true, if_false, htx, hsave, if_true]
  refine ⟨hmain, ?_⟩
  rw [hmain]
  rfl

/-- Witness for C7 amended: the membership check rejects the selected tailnet. -/
theorem c7_error_written_when_request_loaded_witness :
    authComplete
        { parseFormOk := true, verifyOk := true, rid := "r1",
          fetchRequestFails := false, fetchUserFails := false, userId := some 1,
          isMember := false, fetchTailnetFails := false, fetchMachineFails := false,
          machineExists := false, createMachineFails := false, newMachineId := 1,
          saveRequestFails := false, bestEffortSaveOk := true }
        ⟨[⟨"r1", false, none, ""⟩], []⟩
        = (.httpError 500,
            saveRequest ⟨[⟨"r1", false, none, ""⟩], []⟩
              { (⟨"r1", false, none, ""⟩ : RegRequestRow) with
                  authenticated := false,
                  error := "user is not a member of the requested tailnet" })
      ∧ (authComplete
          { parseFormOk := true, verifyOk := true, rid := "r1",
            fetchRequestFails := false, fetchUserFails := false, userId := some 1,
            isMember := false, fetchTailnetFails := false, fetchMachineFails := false,
            machineExists := false, createMachineFails := false, newMachineId := 1,
            saveRequestFails := false, bestEffortSaveOk := true }
          ⟨[⟨"r1", false, none, ""⟩], []⟩).2.machines
        = (⟨[⟨"r1", false, none, ""⟩], []⟩ : OidcDb).machines :=
  c7_error_written_when_request_loaded _ _ ⟨"r1", false, none, ""⟩
    "user is not a member of the requested tailnet" rfl rfl (by decide) rfl

/-! ### Tailnet name sanitization (C9), src/unnamed/part_007 lines 48-63

SanitizeTailnetName lowercases its input, and either treats it as an email
address (sanitizing the local part as one label and appending the domain
unchanged after a dot) when `mail.ParseAddress` succeeds and returns the input
itself, or sanitizes each dot-separated label independently. Strings are
modelled as byte lists, as Go indexes them. The label sanitizer is modelled
from the external library tailscale.com/util/dnsname and the address parser
from the Go standard library net/mail; both models are scoped in their doc
comments. -/

/-- dnsname.isalphanum (external tailscale.com/util/dnsname): an ASCII letter
or digit. -/
def isalphanumB (c : Nat) : Bool :=
  (97 ≤ c && c ≤ 122) || (65 ≤ c && c ≤ 90) || (48 ≤ c && c ≤ 57)

/-- dnsname.isdnschar (external): letter, digit or hyphen (45). -/
def isdnscharB (c : Nat) : Bool := isalphanumB c || c == 45

/-- dnsname separator bytes (external): space (32), dot (46), at (64),
underscore (95); replaced by a hyphen away from label boundaries. -/
def isSeparatorB (c : Nat) : Bool := c == 32 || c == 46 || c == 64 || c == 95

/-- ASCII lowercasing of one byte (strings.ToLower restricted to ASCII). Bytes
outside A-Z, including the bytes of multibyte runes, pass through: the label
sanitizer drops every such byte and the email guard only tests whether a byte
is at or above 0x80, which Unicode lowercasing preserves for multibyte runes;
the few Unicode case foldings that map a multibyte rune to ASCII (such as the
Kelvin sign) are outside the model. -/
def tolowerB (c : Nat) : Nat := if 65 ≤ c && c ≤ 90 then c + 32 else c

/-- The boundary trimming of dnsname.SanitizeLabel (external): a label must
start and end with an alphanumeric byte, so leading and trailing bytes that are
not are dropped. -/
def trimNonAlnum (l : List Nat) : List Nat :=
  ((l.dropWhile fun c => !isalphanumB c).reverse.dropWhile fun c => !isalphanumB c).reverse

/-- The non-initial positions of the SanitizeLabel loop (external): away from
the final boundary a separator becomes a hyphen, a DNS byte is lowercased and
kept, anything else is dropped; the final byte keeps only the DNS-byte case. -/
def sanitizeTail : List Nat → List Nat
  | [] => []
  | [c] => if isdnscharB c then [tolowerB c] else []
  | c :: c2 :: rest =>
      (if isSeparatorB c then [45]
       else if isdnscharB c then [tolowerB c] else []) ++ sanitizeTail (c2 :: rest)

/-- dnsname.SanitizeLabel (external tailscale.com/util/dnsname): trim
non-alphanumeric bytes from both ends, then map the remaining bytes, treating
the first and last position as boundaries where separators are not turned into
hyphens. -/
def sanitizeLabel (l : List Nat) : List Nat :=
  match trimNonAlnum l with
  | [] => []
  | c :: rest => (if isdnscharB c then [tolowerB c] else []) ++ sanitizeTail rest

/-- Go strings.Split with a one-byte separator: every occurrence splits, empty
pieces are preserved, and the empty string yields one empty piece. -/
def splitOnB (sep : Nat) : List Nat → List (List Nat)
  | [] => [[]]
  | c :: cs =>
      match splitOnB sep cs with
      | [] => [[]]
      | p :: ps => if c == sep then [] :: p :: ps else (c :: p) :: ps

/-- Go strings.Join with a one-byte separator. -/
def joinSep (sep : Nat) : List (List Nat) → List Nat
  | [] => []
  | [p] => p
  | p :: q :: ps => p ++ sep :: joinSep sep (q :: ps)

/-- RFC 5322/6532 atext as accepted by Go net/mail (external Go standard
library): a printable ASCII byte (isVchar, 33-126) that is not one of the
specials ( ) < > [ ] : ; at backslash comma quote — the dot is handled by the
dot-atom rule — or any byte of a multibyte rune: net/mail isVchar also accepts
every rune at or above 0x80 (RFC 6532; a malformed byte decodes to the
replacement rune, which is likewise accepted), and multibyte runes consist
exactly of bytes at or above 0x80. -/
def isAtextB (c : Nat) : Bool :=
  ((33 ≤ c && c ≤ 126) &&
    !(c == 40 || c == 41 || c == 60 || c == 62 || c == 91 || c == 93 ||
      c == 58 || c == 59 || c == 64 || c == 92 || c == 44 || c == 34 || c == 46))
    || 128 ≤ c

/-- A dot-atom (external net/mail): nonempty, every dot-separated run nonempty
and made of atext bytes (no leading, trailing or double dots). -/
def isDotAtomB (l : List Nat) : Bool :=
  !l.isEmpty && (splitOnB 46 l).all fun p => !p.isEmpty && p.all isAtextB

/-- The email test of SanitizeTailnetName, `mail.ParseAddress(name)` succeeding
with `a.Address == name` (external Go net/mail): this holds exactly when the
name is a bare addr-spec local@domain with dot-atom local part and dot-atom
domain, multibyte runes included, so non-ASCII addresses such as a@ü.com take
the email path here as in the source. (Go additionally accepts display names,
quoted local parts and comments, but the Address it reassembles from those
differs from the verbatim input, so the guard equality rejects them; domain
literals such as a@[1.2.3.4] are not implemented by the net/mail parser and
fall to the label path in both the source and the model.) -/
def emailGuard (l : List Nat) : Bool :=
  match splitOnB 64 l with
  | [lp, dom] => isDotAtomB lp && isDotAtomB dom
  | _ => false

/-- SanitizeTailnetName (src/unnamed/part_007 lines 48-63): lowercase; on the
email path, split on the at sign and join the sanitized local part with the
unsanitized domain using a dot; otherwise sanitize every dot-separated label
and rejoin. -/
def sanitizeTailnetName (name : List Nat) : List Nat :=
  let n := name.map tolowerB
  if emailGuard n then
    joinSep 46 [sanitizeLabel ((splitOnB 64 n).headD []), ((splitOnB 64 n).drop 1).headD []]
  else
    joinSep 46 ((splitOnB 46 n).map sanitizeLabel)

/-- The bytes of a string literal, for readable statements. -/
def strBytes (s : String) : List Nat := s.data.map Char.toNat

/-- C9 counterexample: the address a@b$x.com is a valid addr-spec (the dollar
sign is atext), so the first pass takes the email path and emits a.b$x.com with
the domain unsanitized; the second pass takes the label path and drops the
dollar sign, giving a.bx.com. SanitizeTailnetName is therefore not idempotent. -/
theorem c9_email_domain_not_fixed_point :
    sanitizeTailnetName (strBytes "a@b$x.com") = strBytes "a.b$x.com" ∧
      sanitizeTailnetName (strBytes "a.b$x.com") = strBytes "a.bx.com" ∧
      sanitizeTailnetName (sanitizeTailnetName (strBytes "a@b$x.com"))
        ≠ sanitizeTailnetName (strBytes "a@b$x.com") := by
  refine ⟨?_, ?_, ?_⟩ <;> decide

/-- Lowercase ASCII letter or digit: the byte classes the sanitizer can emit
besides the hyphen. -/
def isLowerAlnumB (c : Nat) : Bool := (97 ≤ c && c ≤ 122) || (48 ≤ c && c ≤ 57)

/-- A byte of the RFC 1035 output alphabet of the label sanitizer. -/
def isLowerDnsB (c : Nat) : Bool := isLowerAlnumB c || c == 45

theorem isLowerAlnumB_tolowerB {c : Nat} (h : isalphanumB c = true) :
    isLowerAlnumB (tolowerB c) = true := by
  simp only [isalphanumB, Bool.or_eq_true, Bool.and_eq_true, decide_eq_true_eq] at h
  simp only [tolowerB, isLowerAlnumB, Bool.or_eq_true, Bool.and_eq_true, decide_eq_true_eq]
  split
  · next hc => omega
  · next hc => omega

theorem isLowerDnsB_of_lowerAlnum {c : Nat} (h : isLowerAlnumB c = true) :
    isLowerDnsB c = true := by
  simp [isLowerDnsB, h]

theorem isalphanumB_of_lowerAlnum {c : Nat} (h : isLowerAlnumB c = true) :
    isalphanumB c = true := by
  simp only [isLowerAlnumB, Bool.or_eq_true, Bool.and_eq_true, decide_eq_true_eq] at h
  simp only [isalphanumB, Bool.or_eq_true, Bool.and_eq_true, decide_eq_true_eq]
  omega

theorem isLowerDnsB_tolowerB {c : Nat} (h : isdnscharB c = true) :
    isLowerDnsB (tolowerB c) = true := by
  simp only [isdnscharB, Bool.or_eq_true, beq_iff_eq] at h
  rcases h with h | h
  · exact isLowerDnsB_of_lowerAlnum (isLowerAlnumB_tolowerB h)
  · subst h
    rfl

theorem tolowerB_id {c : Nat} (h : isLowerDnsB c = true) : tolowerB c = c := by
  simp only [isLowerDnsB, isLowerAlnumB, Bool.or_eq_true, Bool.and_eq_true,
    decide_eq_true_eq, beq_iff_eq] at h
  simp only [tolowerB]
  split
  · next hc =>
      simp only [Bool.and_eq_true, decide_eq_true_eq] at hc
      omega
  · rfl

theorem isdnscharB_of_alnum {c : Nat} (h : isalphanumB c = true) : isdnscharB c = true := by
  simp [isdnscharB, h]

theorem isdnscharB_of_lower {c : Nat} (h : isLowerDnsB c = true) : isdnscharB c = true := by
  simp only [isLowerDnsB, Bool.or_eq_true, beq_iff_eq] at h
  rcases h with h | h
  · exact isdnscharB_of_alnum (isalphanumB_of_lowerAlnum h)
  · subst h
    rfl

theorem isSeparatorB_eq_false_of_lower {c : Nat} (h : isLowerDnsB c = true) :
    isSeparatorB c = false := by
  simp only [isLowerDnsB, isLowerAlnumB, Bool.or_eq_true, Bool.and_eq_true,
    decide_eq_true_eq, beq_iff_eq] at h
  simp only [isSeparatorB, Bool.or_eq_false_iff, beq_eq_false_iff_ne, ne_eq]
  omega

theorem lower_ne_dot {c : Nat} (h : isLowerDnsB c = true) : c ≠ 46 := by
  simp only [isLowerDnsB, isLowerAlnumB, Bool.or_eq_true, Bool.and_eq_true,
    decide_eq_true_eq, beq_iff_eq] at h
  omega

theorem lower_ne_at {c : Nat} (h : isLowerDnsB c = true) : c ≠ 64 := by
  simp only [isLowerDnsB, isLowerAlnumB, Bool.or_eq_true, Bool.and_eq_true,
    decide_eq_true_eq, beq_iff_eq] at h
  omega

theorem dropWhile_head_false (q : Nat → Bool) :
    ∀ (m : List Nat) (c : Nat) (rest : List Nat), m.dropWhile q = c :: rest → q c = false := by
  intro m
  induction m with
  | nil =>
      intro c rest h
      exact absurd h (by simp)
  | cons a as ih =>
      intro c rest h
      rw [List.dropWhile_cons] at h
      split at h
      · exact ih _ _ h
      · next hqa =>
          injection h with h1 _
          subst h1
          exact Bool.eq_false_iff.mpr hqa

theorem dropWhile_getLast? (q : Nat → Bool) (m : List Nat) (h : m.dropWhile q ≠ []) :
    (m.dropWhile q).getLast? = m.getLast? := by
  induction m with
  | nil => simp at h
  | cons a as ih =>
      by_cases hqa : q a = true
      · rw [List.dropWhile_cons, if_pos hqa] at h ⊢
        have hasne : as ≠ [] := by
          intro h0
          subst h0
          simp at h
        rw [ih h]
        cases as with
        | nil => exact absurd rfl hasne
        | cons b bs => rw [List.getLast?_cons_cons]
      · rw [List.dropWhile_cons, if_neg hqa]

theorem trimNonAlnum_head? (l : List Nat) (c : Nat) (h : (trimNonAlnum l).head? = some c) :
    isalphanumB c = true := by
  rw [trimNonAlnum, List.head?_reverse] at h
  have hne :
      (List.dropWhile (fun c => !isalphanumB c)
        (List.dropWhile (fun c => !isalphanumB c) l).reverse) ≠ [] := by
    intro h0
    rw [h0] at h
    exact Option.noConfusion h
  rw [dropWhile_getLast? _ _ hne, List.getLast?_reverse] at h
  rcases hu : List.dropWhile (fun c => !isalphanumB c) l with _ | ⟨d, rest⟩
  · rw [hu] at h
    exact Option.noConfusion h
  · rw [hu] at h
    injection h with h
    subst h
    have hd := dropWhile_head_false _ l _ _ hu
    simpa using hd

theorem trimNonAlnum_getLast? (l : List Nat) (d : Nat)
    (h : (trimNonAlnum l).getLast? = some d) : isalphanumB d = true := by
  rw [trimNonAlnum, List.getLast?_reverse] at h
  rcases hv : List.dropWhile (fun c => !isalphanumB c)
      (List.dropWhile (fun c => !isalphanumB c) l).reverse with _ | ⟨e, rest⟩
  · rw [hv] at h
    exact Option.noConfusion h
  · rw [hv] at h
    injection h with h
    subst h
    have hd := dropWhile_head_false _ _ _ _ hv
    simpa using hd

theorem sanitizeTail_mem (t : List Nat) : ∀ c ∈ sanitizeTail t, isLowerDnsB c = true := by
  induction t with
  | nil =>
      intro c hc
      exact absurd hc (List.not_mem_nil c)
  | cons a as ih =>
      cases as with
      | nil =>
          intro c hc
          simp only [sanitizeTail] at hc
          split at hc
          · next ha =>
              rw [List.mem_singleton] at hc
              subst hc
              exact isLowerDnsB_tolowerB ha
          · exact absurd hc (List.not_mem_nil c)
      | cons b bs =>
          intro c hc
          simp only [sanitizeTail, List.mem_append] at hc
          rcases hc with hc | hc
          · split at hc
            · rw [List.mem_singleton] at hc
              subst hc
              rfl
            · split at hc
              · next ha =>
                  rw [List.mem_singleton] at hc
                  subst hc
                  exact isLowerDnsB_tolowerB ha
              · exact absurd hc (List.not_mem_nil c)
          · exact ih c hc

theorem sanitizeTail_getLast? (t : List Nat) (e : Nat) (ht : t.getLast? = some e)
    (he : isalphanumB e = true) :
    ∃ d, (sanitizeTail t).getLast? = some d ∧ isLowerAlnumB d = true := by
  induction t with
  | nil => simp at ht
  | cons a as ih =>
      cases as with
      | nil =>
          have hae : a = e := by simpa using ht
          have ha : isalphanumB a = true := by
            rw [hae]
            exact he
          simp only [sanitizeTail]
          rw [if_pos (isdnscharB_of_alnum ha)]
          exact ⟨tolowerB a, by simp, isLowerAlnumB_tolowerB ha⟩
      | cons b bs =>
          rw [List.getLast?_cons_cons] at ht
          obtain ⟨d, hd, hld⟩ := ih ht
          refine ⟨d, ?_, hld⟩
          simp only [sanitizeTail]
          rw [List.getLast?_append, hd]
          rfl

theorem sanitizeLabel_mem (l : List Nat) : ∀ c ∈ sanitizeLabel l, isLowerDnsB c = true := by
  intro c hc
  rcases htr : trimNonAlnum l with _ | ⟨a, rest⟩ <;>
    simp only [sanitizeLabel, htr] at hc
  · exact absurd hc (List.not_mem_nil c)
  · rw [List.mem_append] at hc
    rcases hc with hc | hc
    · split at hc
      · next ha =>
          rw [List.mem_singleton] at hc
          subst hc
          exact isLowerDnsB_tolowerB ha
      · exact absurd hc (List.not_mem_nil c)
    · exact sanitizeTail_mem rest c hc

theorem sanitizeLabel_head? (l : List Nat) (c : Nat)
    (h : (sanitizeLabel l).head? = some c) : isLowerAlnumB c = true := by
  rcases htr : trimNonAlnum l with _ | ⟨a, rest⟩
  · simp only [sanitizeLabel, htr] at h
    exact Option.noConfusion h
  · have ha : isalphanumB a = true := trimNonAlnum_head? l a (by rw [htr]; rfl)
    simp only [sanitizeLabel, htr] at h
    rw [if_pos (isdnscharB_of_alnum ha)] at h
    rw [List.singleton_append, List.head?_cons] at h
    injection h with h
    subst h
    exact isLowerAlnumB_tolowerB ha

theorem sanitizeLabel_getLast? (l : List Nat) (d : Nat)
    (h : (sanitizeLabel l).getLast? = some d) : isLowerAlnumB d = true := by
  rcases htr : trimNonAlnum l with _ | ⟨a, rest⟩
  · simp only [sanitizeLabel, htr] at h
    exact Option.noConfusion h
  · have ha : isalphanumB a = true := trimNonAlnum_head? l a (by rw [htr]; rfl)
    simp only [sanitizeLabel, htr] at h
    rw [if_pos (isdnscharB_of_alnum ha)] at h
    cases rest with
    | nil =>
        simp only [sanitizeTail, List.append_nil, List.getLast?_singleton] at h
        injection h with h
        subst h
        exact isLowerAlnumB_tolowerB ha
    | cons b bs =>
        rcases hgl : (b :: bs).getLast? with _ | e
        · rw [List.getLast?_eq_none_iff] at hgl
          exact absurd hgl (by simp)
        · have he : isalphanumB e = true := trimNonAlnum_getLast? l e (by
            rw [htr, List.getLast?_cons_cons, hgl])
          obtain ⟨d1, hd1, hld1⟩ := sanitizeTail_getLast? (b :: bs) e hgl he
          rw [List.getLast?_append, hd1, Option.or_some] at h
          injection h with h
          subst h
          exact hld1

theorem sanitizeTail_id (t : List Nat) (hall : ∀ c ∈ t, isLowerDnsB c = true)
    (hlast : ∀ d, t.getLast? = some d → isLowerAlnumB d = true) : sanitizeTail t = t := by
  induction t with
  | nil => rfl
  | cons a as ih =>
      cases as with
      | nil =>
          have haa : isLowerAlnumB a = true := hlast a (by rw [List.getLast?_singleton])
          simp only [sanitizeTail]
          rw [if_pos (isdnscharB_of_lower (isLowerDnsB_of_lowerAlnum haa)),
            tolowerB_id (isLowerDnsB_of_lowerAlnum haa)]
      | cons b bs =>
          have ha : isLowerDnsB a = true := hall a (List.mem_cons_self a (b :: bs))
          simp only [sanitizeTail]
          rw [isSeparatorB_eq_false_of_lower ha]
          simp only [Bool.false_eq_true, if_false]
          rw [if_pos (isdnscharB_of_lower ha), tolowerB_id ha, List.singleton_append]
          rw [ih (fun c hc => hall c (List.mem_cons_of_mem a hc))
            (fun d hd => hlast d (by rw [List.getLast?_cons_cons]; exact hd))]

theorem dropWhile_id_of_head (q : Nat → Bool) (l : List Nat)
    (h : ∀ c, l.head? = some c → q c = false) : l.dropWhile q = l := by
  cases l with
  | nil => rfl
  | cons a as =>
      rw [List.dropWhile_cons, if_neg]
      simp [h a rfl]

theorem trimNonAlnum_id (l : List Nat)
    (hh : ∀ c, l.head? = some c → isalphanumB c = true)
    (hl : ∀ d, l.getLast? = some d → isalphanumB d = true) : trimNonAlnum l = l := by
  rw [trimNonAlnum]
  rw [dropWhile_id_of_head _ l (fun c hc => by simp [hh c hc])]
  rw [dropWhile_id_of_head _ l.reverse (fun c hc => by
    rw [List.head?_reverse] at hc
    simp [hl c hc])]
  exact List.reverse_reverse l

theorem sanitizeLabel_id (l : List Nat) (hall : ∀ c ∈ l, isLowerDnsB c = true)
    (hh : ∀ c, l.head? = some c → isLowerAlnumB c = true)
    (hl : ∀ d, l.getLast? = some d → isLowerAlnumB d = true) : sanitizeLabel l = l := by
  have htr : trimNonAlnum l = l :=
    trimNonAlnum_id l (fun c hc => isalphanumB_of_lowerAlnum (hh c hc))
      (fun d hd => isalphanumB_of_lowerAlnum (hl d hd))
  cases l with
  | nil => rfl
  | cons a as =>
      have ha : isLowerAlnumB a = true := hh a rfl
      simp only [sanitizeLabel, htr]
      rw [if_pos (isdnscharB_of_lower (isLowerDnsB_of_lowerAlnum ha)),
        tolowerB_id (isLowerDnsB_of_lowerAlnum ha), List.singleton_append]
      rw [sanitizeTail_id as (fun c hc => hall c (List.mem_cons_of_mem a hc))
        (fun d hd => hl d (by
          cases as with
          | nil => simp at hd
          | cons b bs => rw [List.getLast?_cons_cons]; exact hd))]

/-- The label sanitizer is idempotent: its output trims to itself and every
byte is already a lowercase DNS byte. -/
theorem sanitizeLabel_idem (l : List Nat) :
    sanitizeLabel (sanitizeLabel l) = sanitizeLabel l :=
  sanitizeLabel_id _ (sanitizeLabel_mem l)
    (fun c hc => sanitizeLabel_head? l c hc)
    (fun d hd => sanitizeLabel_getLast? l d hd)

theorem splitOnB_ne_nil (sep : Nat) (l : List Nat) : splitOnB sep l ≠ [] := by
  induction l with
  | nil => simp [splitOnB]
  | cons c cs ih =>
      simp only [splitOnB]
      rcases h : splitOnB sep cs with _ | ⟨p, ps⟩
      · exact absurd h ih
      · simp only
        split <;> simp

theorem mem_splitOnB_no_sep (sep : Nat) (l : List Nat) :
    ∀ p ∈ splitOnB sep l, sep ∉ p := by
  induction l with
  | nil =>
      intro p hp
      simp only [splitOnB, List.mem_singleton] at hp
      subst hp
      exact List.not_mem_nil sep
  | cons c cs ih =>
      intro p hp
      simp only [splitOnB] at hp
      rcases h : splitOnB sep cs with _ | ⟨q, qs⟩
      · exact absurd h (splitOnB_ne_nil sep cs)
      · rw [h] at hp
        simp only at hp
        split at hp
        · rcases List.mem_cons.mp hp with rfl | hp
          · exact List.not_mem_nil sep
          · exact ih p (h ▸ hp)
        · next hc =>
            rcases List.mem_cons.mp hp with rfl | hp
            · intro hm
              rcases List.mem_cons.mp hm with rfl | hm
              · simp at hc
              · exact ih q (h ▸ List.mem_cons_self q qs) hm
            · exact ih p (h ▸ List.mem_cons_of_mem q hp)

theorem splitOnB_no_sep (sep : Nat) (p : List Nat) (hp : sep ∉ p) :
    splitOnB sep p = [p] := by
  induction p with
  | nil => rfl
  | cons a q ih =>
      have ha : a ≠ sep := by
        intro h0
        exact hp (h0 ▸ List.mem_cons_self a q)
      have hq : sep ∉ q := fun h0 => hp (List.mem_cons_of_mem a h0)
      simp only [splitOnB, ih hq]
      rw [if_neg]
      simp [ha]

theorem splitOnB_append_sep (sep : Nat) (p r : List Nat) (hp : sep ∉ p) :
    splitOnB sep (p ++ sep :: r) = p :: splitOnB sep r := by
  induction p with
  | nil =>
      simp only [List.nil_append, splitOnB]
      rcases h : splitOnB sep r with _ | ⟨q, qs⟩
      · exact absurd h (splitOnB_ne_nil sep r)
      · simp
  | cons a q ih =>
      have ha : a ≠ sep := by
        intro h0
        exact hp (h0 ▸ List.mem_cons_self a q)
      have hq : sep ∉ q := fun h0 => hp (List.mem_cons_of_mem a h0)
      rw [List.cons_append]
      simp only [splitOnB]
      rw [ih hq]
      simp only
      rw [if_neg]
      simp [ha]

theorem splitOnB_joinSep (sep : Nat) (ps : List (List Nat)) (hne : ps ≠ [])
    (hsep : ∀ p ∈ ps, sep ∉ p) : splitOnB sep (joinSep sep ps) = ps := by
  induction ps with
  | nil => exact absurd rfl hne
  | cons p qs ih =>
      cases qs with
      | nil =>
          simp only [joinSep]
          exact splitOnB_no_sep sep p (hsep p (List.mem_cons_self p []))
      | cons q rs =>
          simp only [joinSep]
          rw [splitOnB_append_sep sep p _ (hsep p (List.mem_cons_self p (q :: rs)))]
          rw [ih (by simp) (fun x hx => hsep x (List.mem_cons_of_mem p hx))]

theorem mem_joinSep (sep : Nat) (ps : List (List Nat)) (c : Nat)
    (hc : c ∈ joinSep sep ps) : c = sep ∨ ∃ p ∈ ps, c ∈ p := by
  induction ps with
  | nil => exact absurd hc (List.not_mem_nil c)
  | cons p qs ih =>
      cases qs with
      | nil =>
          simp only [joinSep] at hc
          exact Or.inr ⟨p, List.mem_cons_self p [], hc⟩
      | cons q rs =>
          simp only [joinSep] at hc
          rcases List.mem_append.mp hc with hc | hc
          · exact Or.inr ⟨p, List.mem_cons_self p (q :: rs), hc⟩
          · rcases List.mem_cons.mp hc with rfl | hc
            · exact Or.inl rfl
            · rcases ih hc with h | ⟨x, hx, hcx⟩
              · exact Or.inl h
              · exact Or.inr ⟨x, List.mem_cons_of_mem p hx, hcx⟩

/-- Every output of the label path is a fixed point of the whole sanitizer:
its bytes are lowercase DNS bytes and dots, it contains no at sign so the
email guard fails, splitting it on dots recovers the sanitized labels, and
the label sanitizer is idempotent. -/
theorem labelPath_fixed (n : List Nat) :
    sanitizeTailnetName (joinSep 46 ((splitOnB 46 n).map sanitizeLabel))
      = joinSep 46 ((splitOnB 46 n).map sanitizeLabel) := by
  have hmem : ∀ c ∈ joinSep 46 ((splitOnB 46 n).map sanitizeLabel),
      c = 46 ∨ isLowerDnsB c = true := by
    intro c hc
    rcases mem_joinSep 46 _ c hc with h | ⟨p, hp, hcp⟩
    · exact Or.inl h
    · rcases List.mem_map.mp hp with ⟨q, _, rfl⟩
      exact Or.inr (sanitizeLabel_mem q c hcp)
  have hlower : (joinSep 46 ((splitOnB 46 n).map sanitizeLabel)).map tolowerB
      = joinSep 46 ((splitOnB 46 n).map sanitizeLabel) := by
    rw [← List.map_id (joinSep 46 ((splitOnB 46 n).map sanitizeLabel))]
    rw [List.map_map]
    refine List.map_congr_left ?_
    intro c hc
    rcases hmem c hc with rfl | h
    · rfl
    · show tolowerB c = c
      exact tolowerB_id h
  have hat : (64 : Nat) ∉ joinSep 46 ((splitOnB 46 n).map sanitizeLabel) := by
    intro hm
    rcases hmem 64 hm with h | h
    · exact absurd h (by decide)
    · exact absurd h (by decide)
  have hguard : emailGuard
      ((joinSep 46 ((splitOnB 46 n).map sanitizeLabel)).map tolowerB) = false := by
    rw [hlower, emailGuard, splitOnB_no_sep 64 _ hat]
  have hsplit : splitOnB 46 (joinSep 46 ((splitOnB 46 n).map sanitizeLabel))
      = (splitOnB 46 n).map sanitizeLabel := by
    refine splitOnB_joinSep 46 _ ?_ ?_
    · intro h0
      exact splitOnB_ne_nil 46 n (List.map_eq_nil_iff.mp h0)
    · intro p hp
      rcases List.mem_map.mp hp with ⟨q, _, rfl⟩
      intro hm
      exact absurd (sanitizeLabel_mem q 46 hm) (by decide)
  rw [sanitizeTailnetName]
  simp only [hguard, Bool.false_eq_true, if_false]
  rw [hlower, hsplit, List.map_map]
  refine congrArg (joinSep 46) (List.map_congr_left ?_)
  intro q _
  exact sanitizeLabel_idem q

/-- C9 amended: SanitizeTailnetName is idempotent on every input whose
lowercased form does not pass the email-address guard (the label path); on the
email path the domain is passed through unsanitized, so an address whose domain
contains bytes outside the DNS alphabet is not a fixed point, as the
counterexample a@b$x.com shows. -/
theorem c9_label_path_idempotent (name : List Nat)
    (h : emailGuard (name.map tolowerB) = false) :
    sanitizeTailnetName (sanitizeTailnetName name) = sanitizeTailnetName name := by
  have h1 : sanitizeTailnetName name
      = joinSep 46 ((splitOnB 46 (name.map tolowerB)).map sanitizeLabel) := by
    rw [sanitizeTailnetName]
    simp only [h, Bool.false_eq_true, if_false]
  rw [h1]
  exact labelPath_fixed (name.map tolowerB)

/-- Witness for C9 amended at the non-email name "Alice.Dev". -/
theorem c9_label_path_idempotent_witness :
    sanitizeTailnetName (sanitizeTailnetName (strBytes "Alice.Dev"))
      = sanitizeTailnetName (strBytes "Alice.Dev") :=
  c9_label_path_idempotent (strBytes "Alice.Dev") (by decide)

end Wirefire
